import Mathlib

/-!
Verification of the transaction classification-and-aggregation engine:
the merchant-matching categorizer (`categorizer.py`), the ignore-pattern
filter (`transaction_filter.py`) and the analytics layer (`analytics.py`),
over the data model of `models.py`.

Modelling conventions:
* Monetary amounts are rationals (`ℚ`); the Python code uses floats, and the
  claims under study are about exact guard conditions, sign handling and
  algebraic identities, which the rational model states exactly.
* Python strings are Lean `String`s; `str.lower` is modelled as mapping
  `Char.toLower` over the characters (faithful on ASCII data), and
  `pattern in text` is the substring test `occursIn`.
* `pandas.DataFrame.groupby('category')` (default `sort=True`) emits one
  group per distinct category, in ascending lexicographic key order.
* `DataFrame.sort_values('total', ascending=False)` uses numpy's default
  introsort, whose order among equal keys is unspecified in general (pandas
  documents only the mergesort/stable kinds as stable); below numpy's
  small-sort threshold of 16 elements introsort is insertion sort, hence
  stable, and pandas' `nargsort` reverses the values before argsorting and
  the indexer after, so a stable underlying kind yields a stable descending
  sort.  The model uses the stable insertion sort `isort`: it agrees with
  the program on which list is produced up to tie order for every store,
  and on the exact output for stores with at most 16 tied rows (such as the
  concrete stores evaluated here).  No theorem below about arbitrary stores
  relies on the model's order among equal totals.
* `list.sort` (Timsort) is documented stable, so `isort` models it exactly.
-/

namespace DataCleansing

/-! ### Strings: lowering, substring containment, lexicographic order -/

/-- `str.lower` on a character list (ASCII model of CPython lowering). -/
def lowerL (s : List Char) : List Char := s.map Char.toLower

/-- `str.lower` on a string. -/
def lowerStr (s : String) : String := ⟨lowerL s.data⟩

/-- `p` occurs at the head of `s` (character-wise). -/
def leads : List Char → List Char → Bool
  | [], _ => true
  | _ :: _, [] => false
  | a :: p, b :: s => a == b && leads p s

/-- Python's `p in s` substring test on character lists. -/
def occursIn : List Char → List Char → Bool
  | p, [] => p.isEmpty
  | p, b :: t => leads p (b :: t) || occursIn p t

/-- Python's `p in s` substring test on strings. -/
def occursStr (p s : String) : Bool := occursIn p.data s.data

theorem leads_iff (p s : List Char) : leads p s = true ↔ ∃ r, s = p ++ r := by
  induction p generalizing s with
  | nil => simp [leads]
  | cons a p ih =>
    cases s with
    | nil => simp [leads]
    | cons b t =>
      simp only [leads, Bool.and_eq_true, beq_iff_eq, ih, List.cons_append,
        List.cons.injEq]
      constructor
      · rintro ⟨rfl, r, rfl⟩; exact ⟨r, rfl, rfl⟩
      · rintro ⟨r, rfl, rfl⟩; exact ⟨rfl, r, rfl⟩

theorem occursIn_iff (p s : List Char) :
    occursIn p s = true ↔ ∃ l r, s = l ++ p ++ r := by
  induction s with
  | nil =>
    simp only [occursIn, List.isEmpty_iff]
    constructor
    · rintro rfl; exact ⟨[], [], rfl⟩
    · rintro ⟨l, r, h⟩
      exact (List.append_eq_nil.mp (List.append_eq_nil.mp h.symm).1).2
  | cons b t ih =>
    simp only [occursIn, Bool.or_eq_true, leads_iff, ih]
    constructor
    · rintro (⟨r, h⟩ | ⟨l, r, h⟩)
      · exact ⟨[], r, by simpa using h⟩
      · exact ⟨b :: l, r, by simp [h]⟩
    · rintro ⟨l, r, h⟩
      cases l with
      | nil => exact Or.inl ⟨r, by simpa using h⟩
      | cons c l =>
        rw [List.cons_append, List.cons_append] at h
        injection h with h1 h2
        exact Or.inr ⟨l, r, h2⟩

/-- Lexicographic `≤` on character lists, by Unicode code point: the model of
Python string comparison. -/
def lexLe : List Char → List Char → Bool
  | [], _ => true
  | _ :: _, [] => false
  | a :: s, b :: t => if a < b then true else if b < a then false else lexLe s t

/-- Python `s <= t` on strings (lexicographic by code point). -/
def strLe (a b : String) : Bool := lexLe a.data b.data

theorem lexLe_total (s t : List Char) : lexLe s t = true ∨ lexLe t s = true := by
  induction s generalizing t with
  | nil => exact Or.inl rfl
  | cons a s ih =>
    cases t with
    | nil => exact Or.inr rfl
    | cons b t =>
      rcases lt_trichotomy a b with h | h | h
      · left; simp [lexLe, h]
      · subst h
        rcases ih t with h' | h'
        · left; simp [lexLe, h', lt_irrefl]
        · right; simp [lexLe, h', lt_irrefl]
      · right; simp [lexLe, h]

theorem lexLe_trans {s t u : List Char} (h1 : lexLe s t = true)
    (h2 : lexLe t u = true) : lexLe s u = true := by
  induction s generalizing t u with
  | nil => rfl
  | cons a s ih =>
    cases t with
    | nil => simp [lexLe] at h1
    | cons b t =>
      cases u with
      | nil => simp [lexLe] at h2
      | cons c u =>
        simp only [lexLe] at h1 h2 ⊢
        rcases lt_trichotomy a b with hab | hab | hab
        · rcases lt_trichotomy b c with hbc | hbc | hbc
          · simp [lt_trans hab hbc]
          · subst hbc; simp [hab]
          · exfalso
            rw [if_neg (lt_asymm hbc), if_pos hbc] at h2
            exact Bool.false_ne_true h2
        · subst hab
          rcases lt_trichotomy a c with hac | hac | hac
          · simp [hac]
          · subst hac
            rw [if_neg (lt_irrefl a), if_neg (lt_irrefl a)] at h1 h2 ⊢
            exact ih h1 h2
          · exfalso
            rw [if_neg (lt_asymm hac), if_pos hac] at h2
            exact Bool.false_ne_true h2
        · exfalso
          rw [if_neg (lt_asymm hab), if_pos hab] at h1
          exact Bool.false_ne_true h1

theorem lexLe_antisymm {s t : List Char} (h1 : lexLe s t = true)
    (h2 : lexLe t s = true) : s = t := by
  induction s generalizing t with
  | nil =>
    cases t with
    | nil => rfl
    | cons b t => simp [lexLe] at h2
  | cons a s ih =>
    cases t with
    | nil => simp [lexLe] at h1
    | cons b t =>
      simp only [lexLe] at h1 h2
      rcases lt_trichotomy a b with hab | hab | hab
      · exfalso
        rw [if_neg (lt_asymm hab), if_pos hab] at h2
        exact Bool.false_ne_true h2
      · subst hab
        rw [if_neg (lt_irrefl a), if_neg (lt_irrefl a)] at h1 h2
        rw [ih h1 h2]
      · exfalso
        rw [if_neg (lt_asymm hab), if_pos hab] at h1
        exact Bool.false_ne_true h1

theorem strLe_total (a b : String) : strLe a b = true ∨ strLe b a = true :=
  lexLe_total a.data b.data

theorem strLe_trans {a b c : String} (h1 : strLe a b = true)
    (h2 : strLe b c = true) : strLe a c = true :=
  lexLe_trans h1 h2

theorem strLe_antisymm {a b : String} (h1 : strLe a b = true)
    (h2 : strLe b a = true) : a = b :=
  String.ext (lexLe_antisymm h1 h2)

/-! ### Stable insertion sort

Model of both pandas' descending `sort_values` (stable on the inputs at hand,
see the header) and Python's stable `list.sort`.  `insertLe le x l` places `x`
before the first element `y` with `le x y`; with a non-strict total `le`,
sorting the tail first and inserting the head yields a stable sort. -/

def insertLe (le : α → α → Bool) (x : α) : List α → List α
  | [] => [x]
  | y :: ys => if le x y then x :: y :: ys else y :: insertLe le x ys

def isort (le : α → α → Bool) : List α → List α
  | [] => []
  | x :: xs => insertLe le x (isort le xs)

theorem perm_insertLe (le : α → α → Bool) (x : α) (l : List α) :
    List.Perm (insertLe le x l) (x :: l) := by
  induction l with
  | nil => exact List.Perm.refl _
  | cons y ys ih =>
    by_cases h : le x y = true
    · simp [insertLe, h]
    · simp only [insertLe, h, if_false, Bool.false_eq_true]
      exact ((ih.cons y).trans (List.Perm.swap x y ys))

theorem perm_isort (le : α → α → Bool) (l : List α) : List.Perm (isort le l) l := by
  induction l with
  | nil => exact List.Perm.refl _
  | cons x xs ih => exact (perm_insertLe le x (isort le xs)).trans (ih.cons x)

theorem mem_isort {le : α → α → Bool} {x : α} {l : List α} :
    x ∈ isort le l ↔ x ∈ l :=
  (perm_isort le l).mem_iff

/-- Inserting `x` into a list sorted for the "comes weakly before" order `le`,
when `x` preceded every element of the list in the original input (`C`),
keeps the list sorted and keeps `C` as the tie order. -/
theorem pairwise_insertLe_stable (le : α → α → Bool) (C : α → α → Prop)
    (htot : ∀ a b, le a b = true ∨ le b a = true)
    (htr : ∀ a b c, le a b = true → le b c = true → le a c = true)
    (x : α) (l : List α)
    (hl : l.Pairwise (fun a b => le a b = true ∧ (le b a = true → C a b)))
    (hx : ∀ z ∈ l, C x z) :
    (insertLe le x l).Pairwise
      (fun a b => le a b = true ∧ (le b a = true → C a b)) := by
  induction l with
  | nil => simp [insertLe]
  | cons y ys ih =>
    rcases List.pairwise_cons.mp hl with ⟨hy, hys⟩
    by_cases h : le x y = true
    · simp only [insertLe, h, if_true]
      refine List.pairwise_cons.mpr ⟨?_, hl⟩
      intro z hz
      rcases List.mem_cons.mp hz with rfl | hz'
      · exact ⟨h, fun _ => hx z (by simp)⟩
      · rcases hy z hz' with ⟨hyz, -⟩
        exact ⟨htr x y z h hyz, fun _ => hx z (by simp [hz'])⟩
    · simp only [insertLe, h, if_false, Bool.false_eq_true]
      refine List.pairwise_cons.mpr ⟨?_, ?_⟩
      · intro z hz
        rcases List.mem_cons.mp ((perm_insertLe le x ys).mem_iff.mp hz) with rfl | hz'
        · rcases htot z y with h' | h'
          · exact absurd h' h
          · exact ⟨h', fun hxy => absurd hxy h⟩
        · exact hy z hz'
      · exact ih hys (fun z hz => hx z (by simp [hz]))

/-- The stable insertion sort orders the list by `le` and, between elements
comparing equal under `le`, keeps any relation `C` that held pairwise in the
input (in particular the input order itself). -/
theorem pairwise_isort_stable (le : α → α → Bool) (C : α → α → Prop)
    (htot : ∀ a b, le a b = true ∨ le b a = true)
    (htr : ∀ a b c, le a b = true → le b c = true → le a c = true)
    (l : List α) (hC : l.Pairwise C) :
    (isort le l).Pairwise
      (fun a b => le a b = true ∧ (le b a = true → C a b)) := by
  induction l with
  | nil => simp [isort]
  | cons x xs ih =>
    rcases List.pairwise_cons.mp hC with ⟨hx, hxs⟩
    exact pairwise_insertLe_stable le C htot htr x (isort le xs) (ih hxs)
      (fun z hz => hx z (mem_isort.mp hz))

theorem pairwise_true (l : List α) : l.Pairwise (fun _ _ => True) := by
  induction l with
  | nil => exact List.Pairwise.nil
  | cons x xs ih => exact List.pairwise_cons.mpr ⟨fun _ _ => trivial, ih⟩

/-- Plain sortedness of the insertion sort. -/
theorem pairwise_isort (le : α → α → Bool)
    (htot : ∀ a b, le a b = true ∨ le b a = true)
    (htr : ∀ a b c, le a b = true → le b c = true → le a c = true)
    (l : List α) :
    (isort le l).Pairwise (fun a b => le a b = true) := by
  have h := pairwise_isort_stable le (fun _ _ => True) htot htr l (pairwise_true l)
  exact h.imp (fun h' => h'.1)

/-! ### Data model (`models.py`) -/

structure Transaction where
  date : String
  amount : ℚ
  nr_1 : String
  nr_2 : String
  description : String
  category : String := "Uncategorized"
  id : Option Nat := none
deriving Repr, DecidableEq

structure Category where
  name : String
  merchants : List String
deriving Repr, DecidableEq

/-! ### `categorizer.py` -/

structure TransactionCategorizer where
  categories : List Category
  default_category : String := "Uncategorized"
deriving Repr, DecidableEq

/-- Inner loop of `categorize_transaction`: scan one category's merchant
patterns in order against the lowered description. -/
def merchantScan (name : String) (ms : List String) (descLower : String) :
    Option String :=
  match ms with
  | [] => none
  | m :: rest =>
    if occursStr (lowerStr m) descLower then some name
    else merchantScan name rest descLower

/-- Outer loop of `categorize_transaction`: scan categories in order. -/
def categoryScan (cats : List Category) (descLower : String) : Option String :=
  match cats with
  | [] => none
  | c :: rest =>
    match merchantScan c.name c.merchants descLower with
    | some n => some n
    | none => categoryScan rest descLower

/-- `TransactionCategorizer.categorize_transaction`: an empty description is
falsy in Python and short-circuits to the default category; otherwise the
first category with a matching merchant pattern wins, else the default. -/
def categorize_transaction (tc : TransactionCategorizer) (description : String) :
    String :=
  if description = "" then tc.default_category
  else
    match categoryScan tc.categories (lowerStr description) with
    | some n => n
    | none => tc.default_category

/-- `TransactionCategorizer.categorize_batch`: sets each transaction's
`category` field in place and returns the list; observably, a map that
rewrites only the `category` field (the empty-list early return coincides
with mapping over the empty list). -/
def categorize_batch (tc : TransactionCategorizer) (ts : List Transaction) :
    List Transaction :=
  ts.map (fun t => { t with category := categorize_transaction tc t.description })

/-! ### `transaction_filter.py` -/

structure TransactionFilter where
  ignore_patterns : List String
deriving Repr, DecidableEq

/-- The constructor lower-cases every pattern once. -/
def mkTransactionFilter (ps : List String) : TransactionFilter :=
  ⟨ps.map lowerStr⟩

/-- `TransactionFilter.should_ignore`: any stored (already lowered) pattern
occurring in the lowered description. -/
def should_ignore (f : TransactionFilter) (description : String) : Bool :=
  f.ignore_patterns.any (fun p => occursStr p (lowerStr description))

/-- `TransactionFilter.filter_transactions`: keep transactions that are not
ignored, in order. -/
def filter_transactions (f : TransactionFilter) (ts : List Transaction) :
    List Transaction :=
  ts.filter (fun t => !(should_ignore f t.description))

/-! ### `analytics.py` -/

structure CategorySummary where
  category : String
  count : Nat
  total : ℚ
  average : ℚ
  percentage : ℚ
  budget : Option ℚ := none
  deviation : Option ℚ := none
  raw_total : Option ℚ := none
deriving Repr, DecidableEq

structure TransactionDetail where
  date : String
  description : String
  amount : ℚ
deriving Repr, DecidableEq

/-- One row of the aggregated dataframe, before summary construction:
the category key with the group's size and signed amount sum. -/
structure GroupRow where
  category : String
  count : Nat
  rawTotal : ℚ
deriving Repr, DecidableEq

/-- Distinct values in first-appearance order (`seen` accumulates the values
already emitted). -/
def firstSeenAux (seen : List String) : List String → List String
  | [] => []
  | x :: xs =>
    if x ∈ seen then firstSeenAux seen xs
    else x :: firstSeenAux (x :: seen) xs

def firstSeen (l : List String) : List String := firstSeenAux [] l

/-- The group keys of `df.groupby('category')` with the default `sort=True`:
the distinct categories in ascending lexicographic order. -/
def groupKeys (ts : List Transaction) : List String :=
  isort strLe (firstSeen (ts.map (fun t => t.category)))

/-- The amounts of one category's group. -/
def amountsFor (ts : List Transaction) (k : String) : List ℚ :=
  (ts.filter (fun t => t.category == k)).map (fun t => t.amount)

/-- One aggregated row: `count`, `sum` (raw total) for one category. -/
def rowFor (ts : List Transaction) (k : String) : GroupRow :=
  ⟨k, (amountsFor ts k).length, (amountsFor ts k).sum⟩

/-- The aggregated dataframe `grouped`, one row per distinct category in
groupby key order. -/
def groupedRows (ts : List Transaction) : List GroupRow :=
  (groupKeys ts).map (rowFor ts)

/-- `grand_total = grouped['total'].sum()` where `total` is the absolute
value of each group's signed sum. -/
def grandTotal (ts : List Transaction) : ℚ :=
  ((groupedRows ts).map (fun r => |r.rawTotal|)).sum

/-- `self.budgets.get(name)`: dictionary lookup, absent key gives `none`. -/
def lookupBudget (bs : List (String × ℚ)) (k : String) : Option ℚ :=
  match bs with
  | [] => none
  | (n, v) :: rest => if n = k then some v else lookupBudget rest k

/-- Build one `CategorySummary` from an aggregated row, given the grand
total `g`: percentage is guarded by `grand_total > 0`, budget and deviation
come from the budget dictionary, `raw_total` keeps the sign. -/
def mkSummary (bs : List (String × ℚ)) (g : ℚ) (r : GroupRow) : CategorySummary :=
  let total := |r.rawTotal|
  let budget := lookupBudget bs r.category
  { category := r.category
    count := r.count
    total := total
    average := r.rawTotal / (r.count : ℚ)
    percentage := if 0 < g then total / g * 100 else 0
    budget := budget
    deviation := budget.map (fun b => b - total)
    raw_total := some r.rawTotal }

/-- `grouped.sort_values('total', ascending=False)`: descending sort of the
rows by absolute total.  The program's order among equal totals is
unspecified in general (default quicksort kind); the model picks one
concrete sorting function, the stable `isort`, which coincides with the
program whenever at most 16 rows tie (numpy's insertion-sort regime — see
the header).  Theorems about arbitrary stores must not use, and below do
not use, the model's order among equal totals. -/
def sortedRows (ts : List Transaction) : List GroupRow :=
  isort (fun a b => decide (|b.rawTotal| ≤ |a.rawTotal|)) (groupedRows ts)

/-- `Analytics.group_by_category`, as a function of the budget dictionary
and the store's transaction list (in id order, as `get_all_transactions`
returns it). -/
def group_by_category (bs : List (String × ℚ)) (ts : List Transaction) :
    List CategorySummary :=
  if ts = [] then []
  else (sortedRows ts).map (mkSummary bs (grandTotal ts))

/-- Sum of the `percentage` fields of a summary list. -/
def sumPercentages (l : List CategorySummary) : ℚ :=
  (l.map (fun s => s.percentage)).sum

/-- `Database.get_by_category`: the store's rows with the exact category,
in id order. -/
def get_by_category (ts : List Transaction) (c : String) : List Transaction :=
  ts.filter (fun t => t.category == c)

/-- `Analytics.get_transactions_by_category`: project the category's rows to
details and sort them by date with the stable `list.sort` under Python's
lexicographic string comparison. -/
def get_transactions_by_category (ts : List Transaction) (c : String) :
    List TransactionDetail :=
  isort (fun a b => strLe a.date b.date)
    ((get_by_category ts c).map (fun t => ⟨t.date, t.description, t.amount⟩))

/-- The `Analytics` object's observable state: the database contents (in id
order) and the budget dictionary. -/
structure AnalyticsState where
  db : List Transaction
  budgets : List (String × ℚ)
deriving Repr, DecidableEq

/-- `Database.get_all_transactions` reads the store and leaves it unchanged. -/
def get_all_transactions (s : AnalyticsState) : List Transaction × AnalyticsState :=
  (s.db, s)

/-- `group_by_category` as a state-passing computation: it reads the store
once and writes nothing. -/
def group_by_category_run (s : AnalyticsState) :
    List CategorySummary × AnalyticsState :=
  let p := get_all_transactions s
  (group_by_category p.2.budgets p.1, p.2)

/-- A concrete store with three categories of equal absolute total, first
seen in the order B, C, A. -/
def tieStore : List Transaction :=
  [⟨"2024-01-01", 10, "001", "x1", "bee", "B", none⟩,
   ⟨"2024-01-02", 10, "002", "x2", "sea", "C", none⟩,
   ⟨"2024-01-03", 10, "003", "x3", "aye", "A", none⟩]

/-! ### Helper characterizations -/

theorem merchantScan_eq (name : String) (ms : List String) (dl : String) :
    merchantScan name ms dl
      = if ms.any (fun m => occursStr (lowerStr m) dl) then some name else none := by
  induction ms with
  | nil => simp [merchantScan]
  | cons m rest ih =>
    by_cases h : occursStr (lowerStr m) dl = true
    · simp [merchantScan, h]
    · simp [merchantScan, h, ih]

theorem categoryScan_eq (cats : List Category) (dl : String) :
    categoryScan cats dl
      = (cats.find? (fun c => c.merchants.any (fun m => occursStr (lowerStr m) dl))).map
          (fun c => c.name) := by
  induction cats with
  | nil => simp [categoryScan]
  | cons c rest ih =>
    by_cases h : c.merchants.any (fun m => occursStr (lowerStr m) dl) = true
    · simp [categoryScan, merchantScan_eq, h, List.find?]
    · simp [categoryScan, merchantScan_eq, h, List.find?, ih]

/-! ### Claims -/

/-- C2: `categorize_transaction` returns the default category on an empty
description; on a non-empty description it returns the name of the first
category (in list order) with any merchant pattern that is a
case-insensitive substring of the description, and the default when none
matches; `occursStr` is exactly substring occurrence; and on categories
`[A: foo, B: foobar]` the description `foobar` is assigned `A`. -/
theorem categorize_transaction_first_match (cats : List Category)
    (dflt desc : String) :
    (desc = "" → categorize_transaction ⟨cats, dflt⟩ desc = dflt)
    ∧ (desc ≠ "" →
        categorize_transaction ⟨cats, dflt⟩ desc =
          match cats.find? (fun c => c.merchants.any
              (fun m => occursStr (lowerStr m) (lowerStr desc))) with
          | some c => c.name
          | none => dflt)
    ∧ (∀ p s : String, occursStr p s = true ↔ ∃ l r, s.data = l ++ p.data ++ r)
    ∧ categorize_transaction ⟨[⟨"A", ["foo"]⟩, ⟨"B", ["foobar"]⟩], "Uncategorized"⟩
        "foobar" = "A" := by
  refine ⟨?_, ?_, ?_, ?_⟩
  · intro h; simp [categorize_transaction, h]
  · intro h
    simp only [categorize_transaction, if_neg h, categoryScan_eq]
    cases cats.find? (fun c => c.merchants.any
        (fun m => occursStr (lowerStr m) (lowerStr desc))) <;> simp
  · intro p s; exact occursIn_iff p.data s.data
  · decide

/-- Witness for C2 at concrete inputs: the empty description falls back to
the default, and the precedence example returns the earlier category. -/
theorem categorize_transaction_first_match_witness :
    categorize_transaction ⟨[⟨"A", ["foo"]⟩, ⟨"B", ["foobar"]⟩], "Uncategorized"⟩ ""
        = "Uncategorized"
    ∧ categorize_transaction ⟨[⟨"A", ["foo"]⟩, ⟨"B", ["foobar"]⟩], "Uncategorized"⟩
        "foobar" = "A" :=
  ⟨(categorize_transaction_first_match [⟨"A", ["foo"]⟩, ⟨"B", ["foobar"]⟩]
      "Uncategorized" "").1 rfl,
   (categorize_transaction_first_match [⟨"A", ["foo"]⟩, ⟨"B", ["foobar"]⟩]
      "Uncategorized" "foobar").2.2.2⟩

/-- C4: `group_by_category` is pure relative to the store: running it leaves
the state unchanged, and running it twice in a row gives the same output
list in the same order. -/
theorem group_by_category_pure (s : AnalyticsState) :
    (group_by_category_run s).2 = s
    ∧ (group_by_category_run ((group_by_category_run s).2)).1
        = (group_by_category_run s).1 :=
  ⟨rfl, rfl⟩

/-- C5: `filter_transactions` returns the order-preserving subsequence of
transactions whose description contains no ignore pattern case-insensitively;
an empty pattern list gives the identity and an empty input gives an empty
output. -/
theorem filter_transactions_spec (ps : List String) (ts : List Transaction) :
    List.Sublist (filter_transactions (mkTransactionFilter ps) ts) ts
    ∧ filter_transactions (mkTransactionFilter ps) ts
        = ts.filter (fun t =>
            !(ps.any (fun p => occursStr (lowerStr p) (lowerStr t.description))))
    ∧ (∀ t ∈ filter_transactions (mkTransactionFilter ps) ts,
        ¬ ∃ p ∈ ps, ∃ l r,
          (lowerStr t.description).data = l ++ (lowerStr p).data ++ r)
    ∧ (ps = [] → filter_transactions (mkTransactionFilter ps) ts = ts)
    ∧ (ts = [] → filter_transactions (mkTransactionFilter ps) ts = []) := by
  have heq : filter_transactions (mkTransactionFilter ps) ts
      = ts.filter (fun t =>
          !(ps.any (fun p => occursStr (lowerStr p) (lowerStr t.description)))) := by
    simp [filter_transactions, should_ignore, mkTransactionFilter, List.any_map,
      Function.comp_def]
  refine ⟨?_, heq, ?_, ?_, ?_⟩
  · exact List.filter_sublist ts
  · intro t ht
    rw [heq] at ht
    have hpred := List.of_mem_filter ht
    simp only [Bool.not_eq_true', List.any_eq_false] at hpred
    rintro ⟨p, hp, l, r, hdecomp⟩
    have : occursStr (lowerStr p) (lowerStr t.description) = true :=
      (occursIn_iff (lowerStr p).data (lowerStr t.description).data).mpr
        ⟨l, r, hdecomp⟩
    exact hpred p hp this
  · rintro rfl
    simp [heq]
  · rintro rfl
    rfl

/-- Witness for C5 at concrete inputs: with no patterns the filter is the
identity, and a matching pattern is dropped case-insensitively. -/
theorem filter_transactions_spec_witness :
    filter_transactions (mkTransactionFilter [])
        [⟨"2024-01-01", 100, "001", "ABC", "GROCERY STORE", "Uncategorized", none⟩]
      = [⟨"2024-01-01", 100, "001", "ABC", "GROCERY STORE", "Uncategorized", none⟩]
    ∧ filter_transactions (mkTransactionFilter ["payment"])
        [⟨"2024-01-02", 200, "002", "DEF", "ONLINE PAYMENT", "Uncategorized", none⟩]
      = [] :=
  ⟨(filter_transactions_spec []
      [⟨"2024-01-01", 100, "001", "ABC", "GROCERY STORE", "Uncategorized", none⟩]).2.2.2.1
      rfl,
   by
    rw [(filter_transactions_spec ["payment"]
      [⟨"2024-01-02", 200, "002", "DEF", "ONLINE PAYMENT", "Uncategorized", none⟩]).2.1]
    decide⟩

/-- C9: `categorize_batch` keeps the list's length and order and rewrites
only the `category` field: date, amount, description, nr_1, nr_2 and id are
unchanged position by position, and the new category of each element is
`categorize_transaction` of its description. -/
theorem categorize_batch_frame (tc : TransactionCategorizer)
    (ts : List Transaction) :
    (categorize_batch tc ts).length = ts.length
    ∧ (categorize_batch tc ts).map (fun t => t.date) = ts.map (fun t => t.date)
    ∧ (categorize_batch tc ts).map (fun t => t.amount) = ts.map (fun t => t.amount)
    ∧ (categorize_batch tc ts).map (fun t => t.description)
        = ts.map (fun t => t.description)
    ∧ (categorize_batch tc ts).map (fun t => t.nr_1) = ts.map (fun t => t.nr_1)
    ∧ (categorize_batch tc ts).map (fun t => t.nr_2) = ts.map (fun t => t.nr_2)
    ∧ (categorize_batch tc ts).map (fun t => t.id) = ts.map (fun t => t.id)
    ∧ (categorize_batch tc ts).map (fun t => t.category)
        = ts.map (fun t => categorize_transaction tc t.description) := by
  refine ⟨?_, ?_, ?_, ?_, ?_, ?_, ?_, ?_⟩ <;>
    simp [categorize_batch, List.map_map, Function.comp]

theorem mem_of_mem_firstSeenAux {x : String} :
    ∀ {seen l : List String}, x ∈ firstSeenAux seen l → x ∈ l := by
  intro seen l
  induction l generalizing seen with
  | nil => intro h; exact absurd h (List.not_mem_nil x)
  | cons y ys ih =>
    intro h
    simp only [firstSeenAux] at h
    by_cases hy : y ∈ seen
    · rw [if_pos hy] at h
      exact List.mem_cons_of_mem y (ih h)
    · rw [if_neg hy] at h
      rcases List.mem_cons.mp h with rfl | h'
      · exact List.mem_cons_self x ys
      · exact List.mem_cons_of_mem y (ih h')

theorem exists_of_mem_groupKeys {ts : List Transaction} {k : String}
    (hk : k ∈ groupKeys ts) : ∃ t ∈ ts, t.category = k := by
  have h1 : k ∈ firstSeen (ts.map (fun t => t.category)) := mem_isort.mp hk
  have h2 : k ∈ ts.map (fun t => t.category) := mem_of_mem_firstSeenAux h1
  obtain ⟨t, ht, rfl⟩ := List.mem_map.mp h2
  exact ⟨t, ht, rfl⟩

theorem amountsFor_ne_nil {ts : List Transaction} {k : String}
    (hk : k ∈ groupKeys ts) : 1 ≤ (amountsFor ts k).length := by
  obtain ⟨t, ht, rfl⟩ := exists_of_mem_groupKeys hk
  have : t.amount ∈ amountsFor ts t.category :=
    List.mem_map_of_mem (fun t => t.amount)
      (List.mem_filter.mpr ⟨ht, by simp⟩)
  have hne := List.ne_nil_of_mem this
  exact List.length_pos.mpr hne

theorem mem_group_by_category {bs : List (String × ℚ)} {ts : List Transaction}
    {s : CategorySummary} (hs : s ∈ group_by_category bs ts) :
    ∃ k ∈ groupKeys ts, s = mkSummary bs (grandTotal ts) (rowFor ts k) := by
  by_cases h : ts = []
  · subst h; exact absurd hs (List.not_mem_nil s)
  · rw [group_by_category, if_neg h] at hs
    obtain ⟨r, hr, rfl⟩ := List.mem_map.mp hs
    have hr' : r ∈ groupedRows ts := mem_isort.mp hr
    obtain ⟨k, hk, rfl⟩ := List.mem_map.mp hr'
    exact ⟨k, hk, rfl⟩

/-- C6: when the grand total (the sum of the categories' absolute totals) is
zero, every summary's percentage is exactly zero — the division is guarded. -/
theorem group_by_category_zero_grand (bs : List (String × ℚ))
    (ts : List Transaction) (h : grandTotal ts = 0) :
    ∀ s ∈ group_by_category bs ts, s.percentage = 0 := by
  intro s hs
  obtain ⟨k, hk, rfl⟩ := mem_group_by_category hs
  simp [mkSummary, h]

/-- Witness for C6: a single zero-amount transaction has zero grand total and
its summary's percentage is zero. -/
theorem group_by_category_zero_grand_witness :
    (mkSummary [] (grandTotal [⟨"2024-01-01", 0, "001", "A1", "zero", "A", none⟩])
        (rowFor [⟨"2024-01-01", 0, "001", "A1", "zero", "A", none⟩] "A")).percentage
      = 0 := by
  refine group_by_category_zero_grand []
    [⟨"2024-01-01", 0, "001", "A1", "zero", "A", none⟩] ?_ _ ?_
  · norm_num [grandTotal, groupedRows, groupKeys, firstSeen, firstSeenAux, isort,
      insertLe, rowFor, amountsFor]
  · simp [group_by_category, sortedRows, groupedRows, groupKeys, firstSeen,
      firstSeenAux, isort, insertLe]

/-- C7: a summary's budget and deviation come from the budget dictionary:
when the category has a budget `b` they are `b` and `b - total`, and when it
has none they are both absent. -/
theorem group_by_category_budget (bs : List (String × ℚ))
    (ts : List Transaction) (s : CategorySummary)
    (hs : s ∈ group_by_category bs ts) :
    (∀ b, lookupBudget bs s.category = some b →
        s.budget = some b ∧ s.deviation = some (b - s.total))
    ∧ (lookupBudget bs s.category = none →
        s.budget = none ∧ s.deviation = none) := by
  obtain ⟨k, hk, rfl⟩ := mem_group_by_category hs
  constructor
  · intro b hb
    simp only [mkSummary] at hb ⊢
    simp [hb]
  · intro hb
    simp only [mkSummary] at hb ⊢
    simp [hb]

/-- C10: every emitted summary aggregates a non-empty partition
(count ≥ 1), and satisfies total ≥ 0, total = |raw_total| and
average = raw_total / count. -/
theorem group_by_category_invariants (bs : List (String × ℚ))
    (ts : List Transaction) (s : CategorySummary)
    (hs : s ∈ group_by_category bs ts) :
    1 ≤ s.count ∧ 0 ≤ s.total
    ∧ ∃ raw, s.raw_total = some raw ∧ s.total = |raw|
        ∧ s.average = raw / (s.count : ℚ) := by
  obtain ⟨k, hk, rfl⟩ := mem_group_by_category hs
  refine ⟨?_, ?_, ?_⟩
  · simpa [mkSummary, rowFor] using amountsFor_ne_nil hk
  · simp [mkSummary, abs_nonneg]
  · exact ⟨(rowFor ts k).rawTotal, rfl, rfl, rfl⟩

/-- Witness for C7: with budget 40 for Restaurants and a single -50
transaction there, the summary carries budget 40 and deviation 40 - 50. -/
theorem group_by_category_budget_witness :
    (mkSummary [("Restaurants", 40)]
        (grandTotal [⟨"2024-01-02", -50, "002", "B2", "STARBUCKS #1",
          "Restaurants", none⟩])
        (rowFor [⟨"2024-01-02", -50, "002", "B2", "STARBUCKS #1",
          "Restaurants", none⟩] "Restaurants")).budget = some 40
    ∧ (mkSummary [("Restaurants", 40)]
        (grandTotal [⟨"2024-01-02", -50, "002", "B2", "STARBUCKS #1",
          "Restaurants", none⟩])
        (rowFor [⟨"2024-01-02", -50, "002", "B2", "STARBUCKS #1",
          "Restaurants", none⟩] "Restaurants")).deviation
      = some (40 - (mkSummary [("Restaurants", 40)]
        (grandTotal [⟨"2024-01-02", -50, "002", "B2", "STARBUCKS #1",
          "Restaurants", none⟩])
        (rowFor [⟨"2024-01-02", -50, "002", "B2", "STARBUCKS #1",
          "Restaurants", none⟩] "Restaurants")).total) := by
  refine (group_by_category_budget [("Restaurants", 40)]
    [⟨"2024-01-02", -50, "002", "B2", "STARBUCKS #1", "Restaurants", none⟩]
    _ ?_).1 40 ?_
  · simp [group_by_category, sortedRows, groupedRows, groupKeys, firstSeen,
      firstSeenAux, isort, insertLe]
  · simp [mkSummary, rowFor, lookupBudget]

/-- Witness for C10 on a concrete one-transaction store. -/
theorem group_by_category_invariants_witness :
    1 ≤ (mkSummary [] (grandTotal [⟨"2024-01-02", -50, "002", "B2",
        "STARBUCKS #1", "Restaurants", none⟩])
        (rowFor [⟨"2024-01-02", -50, "002", "B2", "STARBUCKS #1",
          "Restaurants", none⟩] "Restaurants")).count
    ∧ 0 ≤ (mkSummary [] (grandTotal [⟨"2024-01-02", -50, "002", "B2",
        "STARBUCKS #1", "Restaurants", none⟩])
        (rowFor [⟨"2024-01-02", -50, "002", "B2", "STARBUCKS #1",
          "Restaurants", none⟩] "Restaurants")).total
    ∧ ∃ raw, (mkSummary [] (grandTotal [⟨"2024-01-02", -50, "002", "B2",
        "STARBUCKS #1", "Restaurants", none⟩])
        (rowFor [⟨"2024-01-02", -50, "002", "B2", "STARBUCKS #1",
          "Restaurants", none⟩] "Restaurants")).raw_total = some raw
      ∧ (mkSummary [] (grandTotal [⟨"2024-01-02", -50, "002", "B2",
          "STARBUCKS #1", "Restaurants", none⟩])
          (rowFor [⟨"2024-01-02", -50, "002", "B2", "STARBUCKS #1",
            "Restaurants", none⟩] "Restaurants")).total = |raw|
      ∧ (mkSummary [] (grandTotal [⟨"2024-01-02", -50, "002", "B2",
          "STARBUCKS #1", "Restaurants", none⟩])
          (rowFor [⟨"2024-01-02", -50, "002", "B2", "STARBUCKS #1",
            "Restaurants", none⟩] "Restaurants")).average
        = raw / ((mkSummary [] (grandTotal [⟨"2024-01-02", -50, "002", "B2",
            "STARBUCKS #1", "Restaurants", none⟩])
            (rowFor [⟨"2024-01-02", -50, "002", "B2", "STARBUCKS #1",
              "Restaurants", none⟩] "Restaurants")).count : ℚ) :=
  group_by_category_invariants []
    [⟨"2024-01-02", -50, "002", "B2", "STARBUCKS #1", "Restaurants", none⟩] _
    (by simp [group_by_category, sortedRows, groupedRows, groupKeys, firstSeen,
      firstSeenAux, isort, insertLe])

/-- C8: `get_transactions_by_category` returns exactly the store's rows of
that category projected to details (a permutation of the in-order filter),
sorted ascending by the date string under lexicographic comparison, and an
unknown category yields the empty list. -/
theorem get_transactions_by_category_spec (ts : List Transaction) (c : String) :
    List.Perm (get_transactions_by_category ts c)
      ((ts.filter (fun t => t.category == c)).map
        (fun t => (⟨t.date, t.description, t.amount⟩ : TransactionDetail)))
    ∧ (get_transactions_by_category ts c).Pairwise
        (fun a b => strLe a.date b.date = true)
    ∧ ((∀ t ∈ ts, t.category ≠ c) → get_transactions_by_category ts c = []) := by
  refine ⟨?_, ?_, ?_⟩
  · exact perm_isort _ _
  · refine pairwise_isort (fun (a b : TransactionDetail) => strLe a.date b.date)
      ?_ ?_ _
    · intro a b; exact strLe_total a.date b.date
    · intro a b d h1 h2; exact strLe_trans h1 h2
  · intro h
    have hf : ts.filter (fun t => t.category == c) = [] :=
      List.filter_eq_nil_iff.mpr (fun t ht => by simpa using h t ht)
    simp [get_transactions_by_category, get_by_category, hf, isort]

/-- Witness for C8: drill-down on a category absent from the store returns
the empty list. -/
theorem get_transactions_by_category_spec_witness :
    get_transactions_by_category
      [⟨"2024-01-02", -50, "002", "B2", "STARBUCKS #1", "Restaurants", none⟩]
      "Gas" = [] :=
  (get_transactions_by_category_spec
    [⟨"2024-01-02", -50, "002", "B2", "STARBUCKS #1", "Restaurants", none⟩]
    "Gas").2.2 (by simp)

theorem sum_map_div_mul (l : List GroupRow) (g c : ℚ) :
    (l.map (fun r => |r.rawTotal| / g * c)).sum
      = (l.map (fun r => |r.rawTotal|)).sum / g * c := by
  induction l with
  | nil => simp
  | cons r rest ih =>
    simp only [List.map_cons, List.sum_cons, ih]
    ring

/-- C3 (amended): whenever the grand total is positive — in particular for
every store on which some category's amounts do not sum to zero — the
percentages of `group_by_category` sum to exactly 100, with or without a
budget dictionary (budgets do not enter the percentage base). -/
theorem group_by_category_sum_percentages (bs : List (String × ℚ))
    (ts : List Transaction) (h : 0 < grandTotal ts) :
    sumPercentages (group_by_category bs ts) = 100 := by
  have hne : ts ≠ [] := by
    intro h0
    rw [h0] at h
    norm_num [grandTotal, groupedRows, groupKeys, firstSeen, firstSeenAux,
      isort] at h
  have hfun : (fun r => (mkSummary bs (grandTotal ts) r).percentage)
      = (fun r : GroupRow => |r.rawTotal| / grandTotal ts * 100) :=
    funext fun r => by simp only [mkSummary]; rw [if_pos h]
  have hperm := (perm_isort
    (fun a b : GroupRow => decide (|b.rawTotal| ≤ |a.rawTotal|))
    (groupedRows ts)).map
    (fun r : GroupRow => |r.rawTotal| / grandTotal ts * 100)
  rw [group_by_category, if_neg hne]
  unfold sumPercentages
  rw [List.map_map]
  show ((sortedRows ts).map
    (fun r => (mkSummary bs (grandTotal ts) r).percentage)).sum = 100
  rw [hfun]
  unfold sortedRows
  rw [List.Perm.sum_eq hperm, sum_map_div_mul]
  show grandTotal ts / grandTotal ts * 100 = 100
  rw [div_self (ne_of_gt h)]
  norm_num

/-- Witness for C3 at a concrete store with positive grand total. -/
theorem group_by_category_sum_percentages_witness :
    sumPercentages (group_by_category [("A", 5)]
      [⟨"2024-01-01", 10, "001", "A1", "shop", "A", none⟩]) = 100 :=
  group_by_category_sum_percentages [("A", 5)]
    [⟨"2024-01-01", 10, "001", "A1", "shop", "A", none⟩]
    (by norm_num [grandTotal, groupedRows, groupKeys, firstSeen, firstSeenAux,
      isort, insertLe, rowFor, amountsFor])

/-- Counterexample to C3 as stated: a non-empty store consisting of one
zero-amount transaction has grand total 0, so every percentage is 0 and the
percentages sum to 0, not approximately 100. -/
theorem sum_percentages_counterexample :
    ([⟨"2024-01-01", 0, "001", "A1", "zero", "A", none⟩] : List Transaction) ≠ []
    ∧ sumPercentages (group_by_category []
        [⟨"2024-01-01", 0, "001", "A1", "zero", "A", none⟩]) = 0
    ∧ ¬(|sumPercentages (group_by_category []
          [⟨"2024-01-01", 0, "001", "A1", "zero", "A", none⟩]) - 100|
        ≤ 1 / 1000000) := by
  have hval : sumPercentages (group_by_category []
      [⟨"2024-01-01", 0, "001", "A1", "zero", "A", none⟩]) = 0 := by
    norm_num [sumPercentages, group_by_category, sortedRows, groupedRows,
      groupKeys, firstSeen, firstSeenAux, isort, insertLe, mkSummary, rowFor,
      amountsFor, grandTotal]
  refine ⟨by simp, hval, ?_⟩
  rw [hval]
  norm_num

/-- C1 (amended): summaries are ordered by total descending.  This is the
part of the ordering contract the program guarantees for every store: it
holds for any order the underlying sort produces among equal totals, so it
does not depend on the model's tie order.  The spec's tie-break rule —
first-seen order among equal totals — is refuted by the counterexample
below; the program's tie order derives from the alphabetical groupby
partition order fed through a sort whose behaviour on ties is unspecified
in general, so no universal tie-break is asserted here. -/
theorem group_by_category_sorted (bs : List (String × ℚ))
    (ts : List Transaction) :
    (group_by_category bs ts).Pairwise (fun a b => b.total ≤ a.total) := by
  by_cases hne : ts = []
  · subst hne; simp [group_by_category]
  · rw [group_by_category, if_neg hne]
    refine List.pairwise_map.mpr ?_
    have htot : ∀ a b : GroupRow,
        decide (|b.rawTotal| ≤ |a.rawTotal|) = true
          ∨ decide (|a.rawTotal| ≤ |b.rawTotal|) = true := by
      intro a b
      rcases le_total |b.rawTotal| |a.rawTotal| with h | h
      · exact Or.inl (decide_eq_true h)
      · exact Or.inr (decide_eq_true h)
    have htr : ∀ a b c : GroupRow,
        decide (|b.rawTotal| ≤ |a.rawTotal|) = true →
        decide (|c.rawTotal| ≤ |b.rawTotal|) = true →
        decide (|c.rawTotal| ≤ |a.rawTotal|) = true :=
      fun a b c h1 h2 =>
        decide_eq_true (le_trans (of_decide_eq_true h2) (of_decide_eq_true h1))
    have h := pairwise_isort
      (fun a b : GroupRow => decide (|b.rawTotal| ≤ |a.rawTotal|))
      htot htr (groupedRows ts)
    refine h.imp ?_
    intro a b h1
    exact of_decide_eq_true h1

/-- Counterexample to C1's tie-break rule as stated: three categories B, C, A
first seen in that order, all with total 10; the returned summaries are in
alphabetical order A, B, C, not in first-seen order B, C, A.  With three
tied rows the program is inside numpy's insertion-sort (stable) regime, so
the model's output here is the program's output: groupby emits the
partitions as A, B, C and the descending sort keeps that order. -/
theorem group_by_category_tie_counterexample :
    (tieStore.map (fun t => t.category) = ["B", "C", "A"])
    ∧ ((group_by_category [] tieStore).map (fun s => s.total) = [10, 10, 10])
    ∧ ((group_by_category [] tieStore).map (fun s => s.category)
        = ["A", "B", "C"]) := by
  have hA : rowFor tieStore "A" = ⟨"A", 1, 10⟩ := by
    simp [rowFor, amountsFor, tieStore]
  have hB : rowFor tieStore "B" = ⟨"B", 1, 10⟩ := by
    simp [rowFor, amountsFor, tieStore]
  have hC : rowFor tieStore "C" = ⟨"C", 1, 10⟩ := by
    simp [rowFor, amountsFor, tieStore]
  have hkeys : groupKeys tieStore = ["A", "B", "C"] := by
    simp [groupKeys, firstSeen, firstSeenAux, tieStore, isort, insertLe,
      show strLe "C" "A" = false from by decide,
      show strLe "B" "A" = false from by decide,
      show strLe "B" "C" = true from by decide]
  have hrows : groupedRows tieStore
      = [⟨"A", 1, 10⟩, ⟨"B", 1, 10⟩, ⟨"C", 1, 10⟩] := by
    simp [groupedRows, hkeys, hA, hB, hC]
  have habs : (decide (|(10 : ℚ)| ≤ |(10 : ℚ)|)) = true := by norm_num
  have hsorted : sortedRows tieStore
      = [⟨"A", 1, 10⟩, ⟨"B", 1, 10⟩, ⟨"C", 1, 10⟩] := by
    unfold sortedRows
    rw [hrows]
    simp [isort, insertLe, habs]
  refine ⟨rfl, ?_, ?_⟩
  · rw [group_by_category, if_neg (by simp [tieStore]), List.map_map, hsorted]
    norm_num [mkSummary, Function.comp_def]
  · rw [group_by_category, if_neg (by simp [tieStore]), List.map_map, hsorted]
    simp [mkSummary, Function.comp_def]

end DataCleansing
